import Mathlib

/-!
# A shallow embedding of `validator.go`

The Go package `validator` walks the fields of a struct by reflection, reads each
field's `validate:"..."` struct tag and checks the field's value against that rule.

Modelling decisions.

* A Go `string` is modelled by a Lean `String` (a sequence of Unicode code points,
  i.e. a well-formed UTF-8 text).  `len(s)` is the number of bytes of the UTF-8
  encoding, `String.utf8ByteSize`.  All prefixes and separators used by the program
  are ASCII, so slicing after a matched prefix and splitting on `","` agree on bytes
  and on code points.
* A Go `int` is modelled by a Lean `Int`; `strconv.Atoi` rejects every literal outside
  the 64-bit range, no other arithmetic is performed by the program.
* A Go `error` returned by the program is `nil` (`none`), one of the package level
  sentinel errors, or a `ValidationErrors` list.
* The value handed to `Validate` is seen through `reflect`: `Value` records the
  kind of the value together with the data the program reads from it.
-/

namespace Validator

/-! ## Errors (lines 10-38) -/

/-- The package level error variables of lines 10-18. -/
inductive Sentinel where
  | ErrNotStruct
  | ErrInvalidValidatorSyntax
  | ErrValidateForUnexportedFields
  | ErrUnexpectedValidate
  | ErrWrongLen
  | ErrWrongIn
  | ErrWrongMin
  | ErrWrongMax
  deriving DecidableEq, Repr

/-- The message each sentinel was created with (`errors.New(msg)`, lines 10-18). -/
def Sentinel.Error : Sentinel → String
  | .ErrNotStruct => "wrong argument given, should be a struct"
  | .ErrInvalidValidatorSyntax => "invalid validator syntax"
  | .ErrValidateForUnexportedFields => "validation for unexported field is not allowed"
  | .ErrUnexpectedValidate => "unexpected validate value"
  | .ErrWrongLen => "wrong len"
  | .ErrWrongIn => "wrong in"
  | .ErrWrongMin => "wrong min"
  | .ErrWrongMax => "wrong max"

/-- The struct `ValidationError` of lines 20-22.  Every construction site of the
program stores a sentinel in `Err` (line 190 stores an error that `errors.As` did
not recognise as a `ValidationErrors`, which leaves the sentinels). -/
structure ValidationError where
  Err : Sentinel
  deriving DecidableEq, Repr

/-- The slice type `ValidationErrors` of line 24. -/
abbrev ValidationErrors := List ValidationError

/-- The body of the `for` loop of `ValidationErrors.Error` (lines 29-36): `first` is
the flag, `b` the contents of the string builder. -/
def ValidationErrors.ErrorLoop : List ValidationError → Bool → String → String
  | [], _, b => b
  | err :: rest, first, b =>
    if first then
      ValidationErrors.ErrorLoop rest false (b ++ err.Err.Error)
    else
      ValidationErrors.ErrorLoop rest false ((b ++ ". ") ++ err.Err.Error)

/-- The method `ValidationErrors.Error` (lines 26-38). -/
def ValidationErrors.Error (v : ValidationErrors) : String :=
  ValidationErrors.ErrorLoop v true ""

/-- A non-nil Go `error` as returned by `Validate`: a sentinel or a
`ValidationErrors` list. -/
inductive GoError where
  | sentinel (e : Sentinel)
  | validationErrors (errs : ValidationErrors)
  deriving DecidableEq, Repr

/-! ## Library functions used by the program

`strings.HasPrefix`, `strings.Split` and `strconv.Atoi` belong to the Go standard
library; they are rendered here after their documented behaviour. -/

/-- The Go expression `len(s)` on a string: the number of bytes. -/
def len (s : String) : Int := (s.utf8ByteSize : Int)

/-- The Go function `strings.HasPrefix(s, pre)`. -/
def HasPrefix (s pre : String) : Bool := pre.data.isPrefixOf s.data

/-- The Go slice expression `s[len(pre):]`, used only after `HasPrefix s pre`. -/
def sliceFrom (s pre : String) : String := ⟨s.data.drop pre.data.length⟩

/-- Splitting a character list at every occurrence of `sep`; the result always has
one more piece than there are separators. -/
def splitChars (sep : Char) : List Char → List (List Char)
  | [] => [[]]
  | c :: cs =>
    if c = sep then [] :: splitChars sep cs
    else
      match splitChars sep cs with
      | [] => [[c]]
      | tok :: toks => (c :: tok) :: toks

/-- The Go function `strings.Split(s, sep)` for a one character separator: the pieces
of `s` between the separators, in order; never the empty slice. -/
def Split (s : String) (sep : Char) : List String :=
  (splitChars sep s.data).map String.mk

/-- The value of a decimal digit, `none` for any other character. -/
def digit (c : Char) : Option Nat :=
  if '0' ≤ c ∧ c ≤ '9' then some (c.toNat - '0'.toNat) else none

/-- Reading a run of decimal digits, most significant first; `n` is the value read so
far.  Any non-digit makes the whole run invalid. -/
def digits : List Char → Nat → Option Nat
  | [], n => some n
  | c :: cs, n =>
    match digit c with
    | none => none
    | some d => digits cs (n * 10 + d)

/-- The width of the Go type `int` (`strconv.IntSize`) on 64-bit platforms. -/
def intSize : Nat := 64

/-- The Go function `strconv.Atoi`: it accepts an optional sign `+` or `-` followed by
at least one decimal digit and nothing else, and the value must lie in the range of
`int`.  `none` stands for a non-nil error (syntax or range). -/
def Atoi (s : String) : Option Int :=
  match s.data with
  | [] => none
  | '-' :: ds =>
    if ds = [] then none
    else
      match digits ds 0 with
      | none => none
      | some n => if n ≤ 2 ^ (intSize - 1) then some (-(n : Int)) else none
  | '+' :: ds =>
    if ds = [] then none
    else
      match digits ds 0 with
      | none => none
      | some n => if n < 2 ^ (intSize - 1) then some (n : Int) else none
  | ds =>
    match digits ds 0 with
    | none => none
    | some n => if n < 2 ^ (intSize - 1) then some (n : Int) else none

/-! ## Scalar validators (lines 40-137) -/

def prefixLen : String := "len:"
def prefixIn : String := "in:"
def prefixMin : String := "min:"
def prefixMax : String := "max:"

/-- The loop of lines 55-64 over the tokens of an `in:` rule for an integer. -/
def validateIntIn : List String → Int → Option ValidationError
  | [], _ => some ⟨.ErrWrongIn⟩
  | strVal :: rest, v =>
    match Atoi strVal with
    | none => some ⟨.ErrWrongIn⟩
    | some val => if v = val then none else validateIntIn rest v

/-- The function `validateInt` (lines 45-87); `none` is the nil pointer. -/
def validateInt (validate : String) (v : Int) : Option ValidationError :=
  if validate = "" then none
  else if HasPrefix validate prefixIn then
    match Split (sliceFrom validate prefixIn) ',' with
    | [] => some ⟨.ErrWrongIn⟩
    | first :: rest =>
      if first = "" then some ⟨.ErrWrongIn⟩
      else validateIntIn (first :: rest) v
  else if HasPrefix validate prefixMin then
    match Atoi (sliceFrom validate prefixMin) with
    | none => some ⟨.ErrInvalidValidatorSyntax⟩
    | some min => if v < min then some ⟨.ErrWrongMin⟩ else none
  else if HasPrefix validate prefixMax then
    match Atoi (sliceFrom validate prefixMax) with
    | none => some ⟨.ErrInvalidValidatorSyntax⟩
    | some max => if v > max then some ⟨.ErrWrongMax⟩ else none
  else some ⟨.ErrUnexpectedValidate⟩

/-- The loop of lines 109-114 over the tokens of an `in:` rule for a text. -/
def validateStringIn : List String → String → Option ValidationError
  | [], _ => some ⟨.ErrWrongIn⟩
  | value :: rest, v => if v = value then none else validateStringIn rest v

/-- The function `validateString` (lines 89-137); `none` is the nil pointer. -/
def validateString (validate : String) (v : String) : Option ValidationError :=
  if validate = "" then none
  else if HasPrefix validate prefixLen then
    match Atoi (sliceFrom validate prefixLen) with
    | none => some ⟨.ErrInvalidValidatorSyntax⟩
    | some expLen => if len v ≠ expLen then some ⟨.ErrWrongLen⟩ else none
  else if HasPrefix validate prefixIn then
    match Split (sliceFrom validate prefixIn) ',' with
    | [] => some ⟨.ErrWrongIn⟩
    | first :: rest =>
      if first = "" then some ⟨.ErrWrongIn⟩
      else validateStringIn (first :: rest) v
  else if HasPrefix validate prefixMin then
    match Atoi (sliceFrom validate prefixMin) with
    | none => some ⟨.ErrInvalidValidatorSyntax⟩
    | some min => if len v < min then some ⟨.ErrWrongMin⟩ else none
  else if HasPrefix validate prefixMax then
    match Atoi (sliceFrom validate prefixMax) with
    | none => some ⟨.ErrInvalidValidatorSyntax⟩
    | some max => if len v > max then some ⟨.ErrWrongMax⟩ else none
  else some ⟨.ErrUnexpectedValidate⟩

/-! ## Reflected values and `Validate` (lines 139-200) -/

/-- The kinds `reflect.Kind` the program tells apart. -/
inductive Kind where
  | Int
  | String
  | Slice
  | Struct
  | Ptr
  | Other
  deriving DecidableEq, Repr

mutual
/-- A Go value as `reflect` presents it to the program. -/
inductive Value where
  /-- A value of kind `reflect.Int`. -/
  | int (v : Int)
  /-- A value of kind `reflect.String`. -/
  | string (s : String)
  /-- A slice whose element type has kind `reflect.Int`. -/
  | intSlice (elems : List Int)
  /-- A slice whose element type has kind `reflect.String`. -/
  | stringSlice (elems : List String)
  /-- A slice whose element type has any other kind. -/
  | otherSlice (elems : List Value)
  /-- A struct, with its fields in declaration order. -/
  | struct (fields : List StructField)
  /-- A non-nil pointer. -/
  | ptr (elem : Value)
  /-- A value of any other kind (bool, float, map, sized integers, nil, ...). -/
  | other
/-- What the program reads of `reflect.StructField` and of the field's value:
`IsExported()`, `Tag.Get("validate")` and the value of the field. -/
inductive StructField where
  | mk (IsExported : Bool) (validate : String) (value : Value)
end

/-- The method `reflect.Value.Kind`. -/
def Value.Kind : Value → Kind
  | .int _ => .Int
  | .string _ => .String
  | .intSlice _ => .Slice
  | .stringSlice _ => .Slice
  | .otherSlice _ => .Slice
  | .struct _ => .Struct
  | .ptr _ => .Ptr
  | .other => .Other

/-- One round of the loop of lines 168-173: the list after checking one element. -/
def appendIntErr (validate : String) (errs : ValidationErrors) (x : Int) :
    ValidationErrors :=
  match validateInt validate x with
  | some err => errs ++ [err]
  | none => errs

/-- One round of the loop of lines 175-180: the list after checking one element. -/
def appendStringErr (validate : String) (errs : ValidationErrors) (x : String) :
    ValidationErrors :=
  match validateString validate x with
  | some err => errs ++ [err]
  | none => errs

mutual
/-- The function `Validate` (lines 139-200); `none` is the nil error. -/
def Validate : Value → Option GoError
  | .struct fields =>
    let validationErrors := ValidateFields fields []
    if validationErrors.length = 0 then none
    else some (.validationErrors validationErrors)
  | _ => some (.sentinel .ErrNotStruct)
/-- The loop of lines 147-195 over the fields that remain, `validationErrors` being
the list accumulated so far; the result is the list when the loop ends. -/
def ValidateFields : List StructField → ValidationErrors → ValidationErrors
  | [], validationErrors => validationErrors
  | .mk exported validate value :: rest, validationErrors =>
    if !exported && validate != "" then
      ValidateFields rest (validationErrors ++ [⟨.ErrValidateForUnexportedFields⟩])
    else
      match value with
      | .int v =>
        match validateInt validate v with
        | some err => ValidateFields rest (validationErrors ++ [err])
        | none => ValidateFields rest validationErrors
      | .string s =>
        match validateString validate s with
        | some err => ValidateFields rest (validationErrors ++ [err])
        | none => ValidateFields rest validationErrors
      | .intSlice elems =>
        ValidateFields rest (elems.foldl (appendIntErr validate) validationErrors)
      | .stringSlice elems =>
        ValidateFields rest (elems.foldl (appendStringErr validate) validationErrors)
      | .struct fields =>
        if validate = "inner" then
          match Validate (.struct fields) with
          | none => ValidateFields rest validationErrors
          | some (.validationErrors nestedValErr) =>
            ValidateFields rest (validationErrors ++ nestedValErr)
          | some (.sentinel nestedErr) =>
            ValidateFields rest (validationErrors ++ [⟨nestedErr⟩])
        else ValidateFields rest validationErrors
      | _ => ValidateFields rest validationErrors
end

/-- The struct tag value `Tag.Get("validate")` of a field. -/
def StructField.validate : StructField → String
  | .mk _ validate _ => validate

/-- Whether the field is exported, `IsExported()`. -/
def StructField.exported : StructField → Bool
  | .mk exported _ _ => exported

/-- The value stored in the field. -/
def StructField.value : StructField → Value
  | .mk _ _ value => value

/-! ## Facts about the library functions -/

theorem splitChars_ne_nil (sep : Char) (l : List Char) : splitChars sep l ≠ [] := by
  cases l with
  | nil => simp [splitChars]
  | cons c cs =>
    by_cases hc : c = sep
    · simp [splitChars, hc]
    · cases hs : splitChars sep cs <;> simp [splitChars, hc, hs]

/-- Joining the pieces with the separator gives the text back. -/
theorem splitChars_intercalate (sep : Char) (l : List Char) :
    [sep].intercalate (splitChars sep l) = l := by
  induction l with
  | nil => simp [splitChars, List.intercalate]
  | cons c cs ih =>
    by_cases hc : c = sep
    · cases hs : splitChars sep cs with
      | nil => exact absurd hs (splitChars_ne_nil sep cs)
      | cons tok toks =>
        rw [hs] at ih
        simp only [splitChars, hc, if_true, hs]
        simp only [List.intercalate, List.intersperse, List.flatten, List.nil_append,
          List.singleton_append] at ih ⊢
        rw [ih]
    · cases hs : splitChars sep cs with
      | nil => exact absurd hs (splitChars_ne_nil sep cs)
      | cons tok toks =>
        rw [hs] at ih
        simp only [splitChars, hc, if_false, hs]
        cases toks with
        | nil =>
          simp only [List.intercalate, List.intersperse, List.flatten, List.append_nil] at ih ⊢
          rw [ih]
        | cons t ts =>
          simp only [List.intercalate, List.intersperse, List.flatten, List.cons_append] at ih ⊢
          rw [ih]

/-- No piece contains the separator. -/
theorem splitChars_no_sep (sep : Char) (l : List Char) :
    ∀ tok ∈ splitChars sep l, sep ∉ tok := by
  induction l with
  | nil => simp [splitChars]
  | cons c cs ih =>
    by_cases hc : c = sep
    · intro tok htok
      simp only [splitChars, hc, if_true, List.mem_cons] at htok
      rcases htok with h | h
      · simp [h]
      · exact ih tok h
    · cases hs : splitChars sep cs with
      | nil => exact absurd hs (splitChars_ne_nil sep cs)
      | cons t ts =>
        rw [hs] at ih
        intro tok htok
        simp only [splitChars, hc, if_false, hs, List.mem_cons] at htok
        rcases htok with h | h
        · subst h
          have := ih t (List.mem_cons_self _ _)
          simp only [List.mem_cons, not_or]
          exact ⟨fun e => hc e.symm, this⟩
        · exact ih tok (List.mem_cons_of_mem _ h)

theorem Split_ne_nil (s : String) (sep : Char) : Split s sep ≠ [] := by
  simp [Split, splitChars_ne_nil]

theorem HasPrefix_append (pre p : String) : HasPrefix (pre ++ p) pre = true := by
  simp [HasPrefix, String.data_append]

theorem sliceFrom_append (pre p : String) : sliceFrom (pre ++ p) pre = p := by
  simp [sliceFrom, String.data_append]

theorem append_ne_empty (pre p : String) (h : pre.data ≠ []) : pre ++ p ≠ "" := by
  intro hc
  have := congrArg String.data hc
  simp [String.data_append] at this
  exact h this.1

theorem data_prefixLen : prefixLen.data = ['l', 'e', 'n', ':'] := rfl

theorem data_prefixIn : prefixIn.data = ['i', 'n', ':'] := rfl

theorem data_prefixMin : prefixMin.data = ['m', 'i', 'n', ':'] := rfl

theorem data_prefixMax : prefixMax.data = ['m', 'a', 'x', ':'] := rfl

theorem HasPrefix_in_len (p : String) : HasPrefix (prefixIn ++ p) prefixLen = false := by
  simp [HasPrefix, List.isPrefixOf, String.data_append, data_prefixIn, data_prefixLen]

theorem HasPrefix_min_len (p : String) : HasPrefix (prefixMin ++ p) prefixLen = false := by
  simp [HasPrefix, List.isPrefixOf, String.data_append, data_prefixMin, data_prefixLen]

theorem HasPrefix_min_in (p : String) : HasPrefix (prefixMin ++ p) prefixIn = false := by
  simp [HasPrefix, List.isPrefixOf, String.data_append, data_prefixMin, data_prefixIn]

theorem HasPrefix_max_len (p : String) : HasPrefix (prefixMax ++ p) prefixLen = false := by
  simp [HasPrefix, List.isPrefixOf, String.data_append, data_prefixMax, data_prefixLen]

theorem HasPrefix_max_in (p : String) : HasPrefix (prefixMax ++ p) prefixIn = false := by
  simp [HasPrefix, List.isPrefixOf, String.data_append, data_prefixMax, data_prefixIn]

theorem HasPrefix_max_min (p : String) : HasPrefix (prefixMax ++ p) prefixMin = false := by
  simp [HasPrefix, List.isPrefixOf, String.data_append, data_prefixMax, data_prefixMin]

theorem min_ne_empty (p : String) : prefixMin ++ p ≠ "" :=
  append_ne_empty _ _ (by simp [data_prefixMin])

theorem max_ne_empty (p : String) : prefixMax ++ p ≠ "" :=
  append_ne_empty _ _ (by simp [data_prefixMax])

theorem len_ne_empty (p : String) : prefixLen ++ p ≠ "" :=
  append_ne_empty _ _ (by simp [data_prefixLen])

theorem in_ne_empty (p : String) : prefixIn ++ p ≠ "" :=
  append_ne_empty _ _ (by simp [data_prefixIn])

/-! ## The scalar validators on each rule -/

theorem validateInt_min (p : String) (v : Int) :
    validateInt (prefixMin ++ p) v =
      match Atoi p with
      | none => some ⟨.ErrInvalidValidatorSyntax⟩
      | some min => if v < min then some ⟨.ErrWrongMin⟩ else none := by
  simp [validateInt, min_ne_empty, HasPrefix_min_in, HasPrefix_append, sliceFrom_append]

theorem validateInt_max (p : String) (v : Int) :
    validateInt (prefixMax ++ p) v =
      match Atoi p with
      | none => some ⟨.ErrInvalidValidatorSyntax⟩
      | some max => if v > max then some ⟨.ErrWrongMax⟩ else none := by
  simp [validateInt, max_ne_empty, HasPrefix_max_in, HasPrefix_max_min, HasPrefix_append,
    sliceFrom_append]

theorem validateString_min (p v : String) :
    validateString (prefixMin ++ p) v =
      match Atoi p with
      | none => some ⟨.ErrInvalidValidatorSyntax⟩
      | some min => if len v < min then some ⟨.ErrWrongMin⟩ else none := by
  simp [validateString, min_ne_empty, HasPrefix_min_len, HasPrefix_min_in, HasPrefix_append,
    sliceFrom_append]

theorem validateString_max (p v : String) :
    validateString (prefixMax ++ p) v =
      match Atoi p with
      | none => some ⟨.ErrInvalidValidatorSyntax⟩
      | some max => if len v > max then some ⟨.ErrWrongMax⟩ else none := by
  simp [validateString, max_ne_empty, HasPrefix_max_len, HasPrefix_max_in, HasPrefix_max_min,
    HasPrefix_append, sliceFrom_append]

theorem validateString_len (p v : String) :
    validateString (prefixLen ++ p) v =
      match Atoi p with
      | none => some ⟨.ErrInvalidValidatorSyntax⟩
      | some expLen => if len v ≠ expLen then some ⟨.ErrWrongLen⟩ else none := by
  simp [validateString, len_ne_empty, HasPrefix_append, sliceFrom_append]

theorem validateInt_in (p : String) (v : Int) :
    validateInt (prefixIn ++ p) v =
      match Split p ',' with
      | [] => some ⟨.ErrWrongIn⟩
      | first :: rest =>
        if first = "" then some ⟨.ErrWrongIn⟩ else validateIntIn (first :: rest) v := by
  simp [validateInt, in_ne_empty, HasPrefix_append, sliceFrom_append]

theorem validateString_in (p v : String) :
    validateString (prefixIn ++ p) v =
      match Split p ',' with
      | [] => some ⟨.ErrWrongIn⟩
      | first :: rest =>
        if first = "" then some ⟨.ErrWrongIn⟩ else validateStringIn (first :: rest) v := by
  simp [validateString, in_ne_empty, HasPrefix_in_len, HasPrefix_append, sliceFrom_append]

theorem validateStringIn_eq (values : List String) (v : String) :
    validateStringIn values v = if v ∈ values then none else some ⟨.ErrWrongIn⟩ := by
  induction values with
  | nil => simp [validateStringIn]
  | cons value rest ih =>
    by_cases h : v = value
    · simp [validateStringIn, h]
    · simp [validateStringIn, h, ih]

/-! ## The field loop of `Validate` -/

theorem foldl_appendIntErr (validate : String) (elems : List Int) (errs : ValidationErrors) :
    elems.foldl (appendIntErr validate) errs =
      errs ++ elems.foldl (appendIntErr validate) [] := by
  induction elems generalizing errs with
  | nil => simp
  | cons x xs ih =>
    simp only [List.foldl_cons]
    rw [ih (appendIntErr validate errs x), ih (appendIntErr validate [] x)]
    cases h : validateInt validate x <;> simp [appendIntErr, h]

theorem foldl_appendStringErr (validate : String) (elems : List String)
    (errs : ValidationErrors) :
    elems.foldl (appendStringErr validate) errs =
      errs ++ elems.foldl (appendStringErr validate) [] := by
  induction elems generalizing errs with
  | nil => simp
  | cons x xs ih =>
    simp only [List.foldl_cons]
    rw [ih (appendStringErr validate errs x), ih (appendStringErr validate [] x)]
    cases h : validateString validate x <;> simp [appendStringErr, h]

/-- The loop body of lines 148-194, unfolded once. -/
theorem ValidateFields_unfold (exported : Bool) (validate : String) (value : Value)
    (rest : List StructField) (errs : ValidationErrors) :
    ValidateFields (.mk exported validate value :: rest) errs =
      if !exported && validate != "" then
        ValidateFields rest (errs ++ [⟨.ErrValidateForUnexportedFields⟩])
      else
        match value with
        | .int v =>
          match validateInt validate v with
          | some err => ValidateFields rest (errs ++ [err])
          | none => ValidateFields rest errs
        | .string s =>
          match validateString validate s with
          | some err => ValidateFields rest (errs ++ [err])
          | none => ValidateFields rest errs
        | .intSlice elems =>
          ValidateFields rest (elems.foldl (appendIntErr validate) errs)
        | .stringSlice elems =>
          ValidateFields rest (elems.foldl (appendStringErr validate) errs)
        | .struct fields =>
          if validate = "inner" then
            match Validate (.struct fields) with
            | none => ValidateFields rest errs
            | some (.validationErrors nestedValErr) =>
              ValidateFields rest (errs ++ nestedValErr)
            | some (.sentinel nestedErr) =>
              ValidateFields rest (errs ++ [⟨nestedErr⟩])
          else ValidateFields rest errs
        | _ => ValidateFields rest errs := by
  cases value <;> rw [ValidateFields] <;> simp

theorem ValidateFields_nil (errs : ValidationErrors) : ValidateFields [] errs = errs := by
  rw [ValidateFields]

/-- One round of the field loop appends what the field yields on its own. -/
theorem ValidateFields_step (f : StructField) (rest : List StructField)
    (errs : ValidationErrors) :
    ValidateFields (f :: rest) errs = ValidateFields rest (errs ++ ValidateFields [f] []) := by
  obtain ⟨exported, validate, value⟩ := f
  rw [ValidateFields_unfold, ValidateFields_unfold]
  by_cases hu : (!exported && validate != "") = true
  · simp only [hu, if_true, ValidateFields_nil, List.nil_append]
  · simp only [hu, if_false, Bool.false_eq_true]
    cases value with
    | int v => cases h : validateInt validate v <;> simp [h, ValidateFields_nil]
    | string s => cases h : validateString validate s <;> simp [h, ValidateFields_nil]
    | intSlice elems =>
      simp only [ValidateFields_nil]
      rw [foldl_appendIntErr]
    | stringSlice elems =>
      simp only [ValidateFields_nil]
      rw [foldl_appendStringErr]
    | struct fields =>
      by_cases hi : validate = "inner"
      · cases h : Validate (.struct fields) with
        | none => simp [h, hi, ValidateFields_nil]
        | some e => cases e <;> simp [h, hi, ValidateFields_nil]
      · simp [hi, ValidateFields_nil]
    | otherSlice elems => simp [ValidateFields_nil]
    | ptr elem => simp [ValidateFields_nil]
    | other => simp [ValidateFields_nil]

theorem ValidateFields_acc (fs : List StructField) (errs : ValidationErrors) :
    ValidateFields fs errs = errs ++ ValidateFields fs [] := by
  induction fs generalizing errs with
  | nil => simp [ValidateFields_nil]
  | cons f rest ih =>
    rw [ValidateFields_step f rest errs, ValidateFields_step f rest [], ih (errs ++ _),
      ih ([] ++ _)]
    simp

theorem ValidateFields_cons (f : StructField) (rest : List StructField) :
    ValidateFields (f :: rest) [] = ValidateFields [f] [] ++ ValidateFields rest [] := by
  rw [ValidateFields_step, ValidateFields_acc]
  simp

theorem ValidateFields_append (xs ys : List StructField) :
    ValidateFields (xs ++ ys) [] = ValidateFields xs [] ++ ValidateFields ys [] := by
  induction xs with
  | nil => simp [ValidateFields_nil]
  | cons f rest ih =>
    rw [List.cons_append, ValidateFields_cons, ih, ValidateFields_cons f rest, List.append_assoc]

theorem ValidateFields_flatMap (fs : List StructField) :
    ValidateFields fs [] = fs.flatMap fun f => ValidateFields [f] [] := by
  induction fs with
  | nil => simp [ValidateFields_nil]
  | cons f rest ih => rw [ValidateFields_cons, List.flatMap_cons, ih]

theorem Validate_struct (fs : List StructField) :
    Validate (.struct fs) =
      if ValidateFields fs [] = [] then none
      else some (.validationErrors (ValidateFields fs [])) := by
  simp [Validate, List.length_eq_zero]

theorem validateIntIn_nil_or_wrongIn (values : List String) (v : Int) :
    validateIntIn values v = none ∨ validateIntIn values v = some ⟨.ErrWrongIn⟩ := by
  induction values with
  | nil => simp [validateIntIn]
  | cons x rest ih =>
    cases hx : Atoi x with
    | none => simp [validateIntIn, hx]
    | some val =>
      by_cases hv : v = val
      · simp [validateIntIn, hx, hv]
      · simpa [validateIntIn, hx, hv] using ih

/-- The integer membership loop passes exactly when some token parses to the value
and every token before it parses. -/
theorem validateIntIn_eq_none_iff (values : List String) (v : Int) :
    validateIntIn values v = none ↔
      ∃ before tok after, values = before ++ tok :: after ∧ Atoi tok = some v ∧
        ∀ t ∈ before, Atoi t ≠ none := by
  induction values with
  | nil => simp [validateIntIn]
  | cons x rest ih =>
    cases hx : Atoi x with
    | none =>
      simp only [validateIntIn, hx]
      refine ⟨fun hc => absurd hc (by simp), ?_⟩
      rintro ⟨before, tok, after, hsplit, htok, hbefore⟩
      cases before with
      | nil =>
        simp only [List.nil_append, List.cons.injEq] at hsplit
        rw [← hsplit.1, hx] at htok
        exact absurd htok (by simp)
      | cons b bs =>
        simp only [List.cons_append, List.cons.injEq] at hsplit
        exact (hbefore b (List.mem_cons_self _ _) (hsplit.1 ▸ hx)).elim
    | some val =>
      by_cases hv : v = val
      · simp only [validateIntIn, hx, hv, if_true, true_iff]
        exact ⟨[], x, rest, rfl, hx, by simp⟩
      · simp only [validateIntIn, hx, hv, if_false]
        rw [ih]
        constructor
        · rintro ⟨before, tok, after, hsplit, htok, hbefore⟩
          refine ⟨x :: before, tok, after, by simp [hsplit], htok, ?_⟩
          intro t ht
          rcases List.mem_cons.mp ht with h | h
          · simp [h, hx]
          · exact hbefore t h
        · rintro ⟨before, tok, after, hsplit, htok, hbefore⟩
          cases before with
          | nil =>
            simp only [List.nil_append, List.cons.injEq] at hsplit
            rw [← hsplit.1, hx] at htok
            exact absurd (Option.some.inj htok).symm hv
          | cons b bs =>
            simp only [List.cons_append, List.cons.injEq] at hsplit
            exact ⟨bs, tok, after, hsplit.2, htok,
              fun t ht => hbefore t (List.mem_cons_of_mem _ ht)⟩

/-- The integer membership loop stops with `ErrWrongIn` at a token that does not
parse when no earlier token equals the value. -/
theorem validateIntIn_bad_token (before after : List String) (tok : String) (v : Int)
    (hbefore : ∀ t ∈ before, ∃ n, Atoi t = some n ∧ n ≠ v) (htok : Atoi tok = none) :
    validateIntIn (before ++ tok :: after) v = some ⟨.ErrWrongIn⟩ := by
  induction before with
  | nil => simp [validateIntIn, htok]
  | cons b bs ih =>
    obtain ⟨n, hn, hne⟩ := hbefore b (List.mem_cons_self _ _)
    have hvn : ¬ v = n := fun e => hne e.symm
    simp only [List.cons_append, validateIntIn, hn, hvn, if_false]
    exact ih fun t ht => hbefore t (List.mem_cons_of_mem _ ht)

theorem validateInt_in_empty (v : Int) : validateInt "in:" v = some ⟨.ErrWrongIn⟩ := by
  have h := validateInt_in "" v
  have hs : Split "" ',' = [""] := by decide
  rw [hs] at h
  simpa using h

/-- A field with an empty rule yields nothing, whatever its shape. -/
theorem ValidateFields_empty_rule (exported : Bool) (value : Value) :
    ValidateFields [.mk exported "" value] [] = [] := by
  rw [ValidateFields_unfold]
  have hI : ∀ elems : List Int, elems.foldl (appendIntErr "") [] = [] := by
    intro elems
    induction elems with
    | nil => rfl
    | cons x xs ih => simpa [appendIntErr, validateInt] using ih
  have hS : ∀ elems : List String, elems.foldl (appendStringErr "") [] = [] := by
    intro elems
    induction elems with
    | nil => rfl
    | cons x xs ih => simpa [appendStringErr, validateString] using ih
  cases value <;> simp [ValidateFields_nil, validateInt, validateString, hI, hS]

/-! ## The claims -/

/-- C1: the violation list `Validate` computes for a record is the concatenation, in
field declaration order, of what each field yields when the loop runs on it alone, so
no field is skipped after a failure; a record with three failing scalar fields gives
the three violations in declaration order. -/
theorem Validate_concat_in_field_order (fs : List StructField) :
    Validate (.struct fs) =
        (if (fs.flatMap fun f => ValidateFields [f] []) = [] then none
         else some (.validationErrors (fs.flatMap fun f => ValidateFields [f] []))) ∧
      Validate (.struct [.mk true "min:5" (.int 1), .mk true "len:3" (.string "ab"),
          .mk true "max:0" (.int 7)]) =
        some (.validationErrors [⟨.ErrWrongMin⟩, ⟨.ErrWrongLen⟩, ⟨.ErrWrongMax⟩]) := by
  refine ⟨?_, by decide⟩
  rw [Validate_struct, ValidateFields_flatMap]

/-- C2: on every input whose kind is not `reflect.Struct`, a pointer to a struct
included, `Validate` returns the sentinel `ErrNotStruct` itself, whatever the input
holds. -/
theorem Validate_not_struct (v : Value) (h : v.Kind ≠ Kind.Struct) :
    Validate v = some (.sentinel .ErrNotStruct) := by
  cases v <;> first | rfl | exact absurd rfl h

theorem Validate_not_struct_witness :
    (Value.ptr (.struct [.mk true "min:5" (.int 1)])).Kind ≠ Kind.Struct ∧
      Validate (.ptr (.struct [.mk true "min:5" (.int 1)])) =
        some (.sentinel .ErrNotStruct) :=
  ⟨by decide, Validate_not_struct _ (by decide)⟩

/-- C3: a record all of whose fields carry the empty rule validates to nil, whatever
the shapes, visibility and values of the fields. -/
theorem Validate_empty_rules (fs : List StructField) (h : ∀ f ∈ fs, f.validate = "") :
    Validate (.struct fs) = none := by
  have hfs : ValidateFields fs [] = [] := by
    induction fs with
    | nil => exact ValidateFields_nil []
    | cons f rest ih =>
      obtain ⟨exported, validate, value⟩ := f
      have hv : validate = "" := h (.mk exported validate value) (List.mem_cons_self _ _)
      subst hv
      rw [ValidateFields_cons, ValidateFields_empty_rule,
        ih fun g hg => h g (List.mem_cons_of_mem _ hg)]
      rfl
  simp [Validate_struct, hfs]

theorem Validate_empty_rules_witness :
    (∀ f ∈ [StructField.mk true "" (.int 5), .mk false "" (.string "x"),
        .mk true "" (.intSlice [1, 2]), .mk true "" (.struct [.mk true "min:5" (.int 1)]),
        .mk false "" .other], f.validate = "") ∧
      Validate (.struct [.mk true "" (.int 5), .mk false "" (.string "x"),
        .mk true "" (.intSlice [1, 2]), .mk true "" (.struct [.mk true "min:5" (.int 1)]),
        .mk false "" .other]) = none :=
  ⟨by decide, Validate_empty_rules _ (by decide)⟩

/-- C4: on a record `Validate` returns nil or a `ValidationErrors` list of length at
least one, never an empty list, and it returns nil exactly when no field yields a
violation. -/
theorem Validate_nil_or_nonempty (fs : List StructField) :
    (Validate (.struct fs) = none ∨
        ∃ errs, Validate (.struct fs) = some (.validationErrors errs) ∧ 1 ≤ errs.length) ∧
      Validate (.struct fs) ≠ some (.validationErrors []) ∧
      (Validate (.struct fs) = none ↔ ∀ f ∈ fs, ValidateFields [f] [] = []) := by
  rw [Validate_struct]
  refine ⟨?_, ?_, ?_⟩
  · by_cases he : ValidateFields fs [] = []
    · simp [he]
    · right
      exact ⟨_, by simp [he], List.length_pos.mpr he⟩
  · by_cases he : ValidateFields fs [] = []
    · simp [he]
    · simp [he]
  · rw [ValidateFields_flatMap]
    by_cases he : (fs.flatMap fun f => ValidateFields [f] []) = []
    · simpa [he] using List.flatMap_eq_nil_iff.mp he
    · simp only [he, if_false, false_iff]
      constructor
      · intro hc
        exact absurd hc (by simp)
      · intro hc
        exact absurd (List.flatMap_eq_nil_iff.mpr hc) he

/-- C5: an unexported field with a non-empty rule yields exactly one violation,
`ErrValidateForUnexportedFields`, whatever its value and shape, and the fields before
and after it are checked as usual. -/
theorem unexported_field_violation (pre post : List StructField) (validate : String)
    (value : Value) (h : validate ≠ "") :
    ValidateFields [.mk false validate value] [] = [⟨.ErrValidateForUnexportedFields⟩] ∧
      Validate (.struct (pre ++ .mk false validate value :: post)) =
        some (.validationErrors (ValidateFields pre [] ++
          [⟨.ErrValidateForUnexportedFields⟩] ++ ValidateFields post [])) := by
  have h1 : ValidateFields [.mk false validate value] [] =
      [⟨.ErrValidateForUnexportedFields⟩] := by
    rw [ValidateFields_unfold]
    simp [h, ValidateFields_nil]
  refine ⟨h1, ?_⟩
  rw [Validate_struct, ValidateFields_append, ValidateFields_cons, h1]
  simp

theorem unexported_field_violation_witness :
    ("inner" : String) ≠ "" ∧
      ValidateFields [.mk false "inner" (.struct [.mk true "min:5" (.int 1)])] [] =
        [⟨.ErrValidateForUnexportedFields⟩] ∧
      Validate (.struct ([.mk true "min:5" (.int 1)] ++
          .mk false "inner" (.struct [.mk true "min:5" (.int 1)]) ::
            [.mk true "len:3" (.string "ab")])) =
        some (.validationErrors (ValidateFields [.mk true "min:5" (.int 1)] [] ++
          [⟨.ErrValidateForUnexportedFields⟩] ++
          ValidateFields [.mk true "len:3" (.string "ab")] [])) :=
  ⟨by decide, unexported_field_violation _ _ "inner" _ (by decide)⟩

/-- C6: for a rule `min:N` (resp. `max:N`) whose payload parses to the integer `n`,
`validateInt` returns `ErrWrongMin` iff `v < n` (resp. `ErrWrongMax` iff `v > n`) and
nil otherwise, and `validateString` does the same with the length of the text. -/
theorem min_max_rules (p : String) (n : Int) (h : Atoi p = some n) (v : Int) (s : String) :
    validateInt ("min:" ++ p) v = (if v < n then some ⟨.ErrWrongMin⟩ else none) ∧
      validateInt ("max:" ++ p) v = (if v > n then some ⟨.ErrWrongMax⟩ else none) ∧
      validateString ("min:" ++ p) s = (if len s < n then some ⟨.ErrWrongMin⟩ else none) ∧
      validateString ("max:" ++ p) s = (if len s > n then some ⟨.ErrWrongMax⟩ else none) := by
  have h1 := validateInt_min p v
  have h2 := validateInt_max p v
  have h3 := validateString_min p s
  have h4 := validateString_max p s
  rw [h] at h1 h2 h3 h4
  exact ⟨h1, h2, h3, h4⟩

theorem min_max_rules_witness :
    Atoi "-3" = some (-3) ∧
      validateInt ("min:" ++ "-3") (-4) = (if (-4 : Int) < -3 then some ⟨.ErrWrongMin⟩ else none) ∧
      validateInt ("max:" ++ "-3") (-4) = (if (-4 : Int) > -3 then some ⟨.ErrWrongMax⟩ else none) ∧
      validateString ("min:" ++ "-3") "ab" =
        (if len "ab" < -3 then some ⟨.ErrWrongMin⟩ else none) ∧
      validateString ("max:" ++ "-3") "ab" =
        (if len "ab" > -3 then some ⟨.ErrWrongMax⟩ else none) :=
  ⟨by decide, min_max_rules "-3" (-3) (by decide) (-4) "ab"⟩

/-- C7: for a rule `len:N` whose payload parses to the integer `n`, `validateString`
returns nil iff the length of the text is exactly `n` and `ErrWrongLen` otherwise;
`len:5` passes on "hello" and fails with `ErrWrongLen` on "hell". -/
theorem len_rule (p : String) (n : Int) (h : Atoi p = some n) (s : String) :
    (validateString ("len:" ++ p) s = none ↔ len s = n) ∧
      (len s ≠ n → validateString ("len:" ++ p) s = some ⟨.ErrWrongLen⟩) ∧
      validateString "len:5" "hello" = none ∧
      validateString "len:5" "hell" = some ⟨.ErrWrongLen⟩ := by
  have h1 := validateString_len p s
  rw [h] at h1
  change validateString ("len:" ++ p) s = _ at h1
  refine ⟨?_, ?_, by decide, by decide⟩
  · rw [h1]
    by_cases hl : len s = n <;> simp [hl]
  · intro hl
    rw [h1]
    simp [hl]

theorem len_rule_witness :
    Atoi "2" = some 2 ∧
      (validateString ("len:" ++ "2") "é" = none ↔ len "é" = 2) ∧
      (len "é" ≠ 2 → validateString ("len:" ++ "2") "é" = some ⟨.ErrWrongLen⟩) ∧
      validateString "len:5" "hello" = none ∧
      validateString "len:5" "hell" = some ⟨.ErrWrongLen⟩ :=
  ⟨by decide, len_rule "2" 2 (by decide) "é"⟩

/-- C8: for a rule `in:<payload>` whose first comma separated token is not empty,
`validateString` returns nil iff the text is literally one of the tokens of the
payload, and `ErrWrongIn` otherwise. -/
theorem text_membership_rule (payload s : String) (h : (Split payload ',').head? ≠ some "") :
    (validateString ("in:" ++ payload) s = none ↔ s ∈ Split payload ',') ∧
      (s ∉ Split payload ',' → validateString ("in:" ++ payload) s = some ⟨.ErrWrongIn⟩) := by
  have h1 := validateString_in payload s
  change validateString ("in:" ++ payload) s = _ at h1
  cases hs : Split payload ',' with
  | nil => exact absurd hs (Split_ne_nil _ _)
  | cons first rest =>
    rw [hs] at h h1
    have hf : first ≠ "" := by simpa using h
    simp only [hf, if_false, validateStringIn_eq] at h1
    rw [h1]
    constructor
    · by_cases hm : s ∈ first :: rest <;> simp [hm]
    · intro hm
      simp [hm]

theorem text_membership_rule_witness :
    (Split "ab,,c" ',').head? ≠ some "" ∧
      (validateString ("in:" ++ "ab,,c") "" = none ↔ "" ∈ Split "ab,,c" ',') ∧
      ("" ∉ Split "ab,,c" ',' →
        validateString ("in:" ++ "ab,,c") "" = some ⟨.ErrWrongIn⟩) :=
  ⟨by decide, text_membership_rule "ab,,c" "" (by decide)⟩

/-- C9, as stated, fails: in `in:abc,1` the first token is not empty and the token `1`
denotes the value 1, yet `validateInt` rejects 1 with `ErrWrongIn`, because the token
`abc` before it does not parse. -/
theorem later_token_after_unparsable_rejected :
    (Split "abc,1" ',').head? ≠ some "" ∧
      (∃ tok ∈ Split "abc,1" ',', Atoi tok = some 1) ∧
      validateInt "in:abc,1" 1 = some ⟨.ErrWrongIn⟩ := by
  decide

/-- C9, amended: for a rule `in:<payload>` whose first token is not empty,
`validateInt` returns nil iff the value equals the integer denoted by a token all of
whose predecessors parse as integers, and `ErrWrongIn` in every other case. -/
theorem int_membership_rule (payload : String) (v : Int)
    (h : (Split payload ',').head? ≠ some "") :
    (validateInt ("in:" ++ payload) v = none ↔
        ∃ before tok after, Split payload ',' = before ++ tok :: after ∧
          Atoi tok = some v ∧ ∀ t ∈ before, Atoi t ≠ none) ∧
      (validateInt ("in:" ++ payload) v ≠ none →
        validateInt ("in:" ++ payload) v = some ⟨.ErrWrongIn⟩) := by
  have h1 := validateInt_in payload v
  change validateInt ("in:" ++ payload) v = _ at h1
  cases hs : Split payload ',' with
  | nil => exact absurd hs (Split_ne_nil _ _)
  | cons first rest =>
    rw [hs] at h h1
    have hf : first ≠ "" := by simpa using h
    simp only [hf, if_false] at h1
    rw [h1]
    refine ⟨validateIntIn_eq_none_iff _ v, fun hne => ?_⟩
    rcases validateIntIn_nil_or_wrongIn (first :: rest) v with h2 | h2
    · exact absurd h2 hne
    · exact h2

theorem int_membership_rule_witness :
    (Split "1,+2,abc,3" ',').head? ≠ some "" ∧
      (validateInt ("in:" ++ "1,+2,abc,3") 2 = none ↔
        ∃ before tok after, Split "1,+2,abc,3" ',' = before ++ tok :: after ∧
          Atoi tok = some 2 ∧ ∀ t ∈ before, Atoi t ≠ none) ∧
      (validateInt ("in:" ++ "1,+2,abc,3") 2 ≠ none →
        validateInt ("in:" ++ "1,+2,abc,3") 2 = some ⟨.ErrWrongIn⟩) :=
  ⟨by decide, int_membership_rule "1,+2,abc,3" 2 (by decide)⟩

/-- C10, as stated, fails: the rule `in:1,abc` checked against 2 and the empty
membership list `in:` checked against 2 give the very same error, `ErrWrongIn`. -/
theorem unparsable_token_same_error_as_empty_list :
    validateInt "in:1,abc" 2 = some ⟨.ErrWrongIn⟩ ∧
      validateInt "in:" 2 = some ⟨.ErrWrongIn⟩ ∧
      validateInt "in:1,abc" 2 = validateInt "in:" 2 := by
  decide

/-- C10, amended: a membership rule with a token that does not parse as an integer,
checked against a value different from every token before it, yields `ErrWrongIn`,
the same error as the empty membership list `in:` yields. -/
theorem unparsable_token_gives_ErrWrongIn (payload : String) (v : Int) (before after : List String)
    (tok : String) (hsplit : Split payload ',' = before ++ tok :: after)
    (hbefore : ∀ t ∈ before, ∃ n, Atoi t = some n ∧ n ≠ v) (htok : Atoi tok = none) :
    validateInt ("in:" ++ payload) v = some ⟨.ErrWrongIn⟩ ∧
      validateInt ("in:" ++ payload) v = validateInt "in:" v := by
  have h1 := validateInt_in payload v
  change validateInt ("in:" ++ payload) v = _ at h1
  have h2 : validateInt ("in:" ++ payload) v = some ⟨.ErrWrongIn⟩ := by
    rw [h1]
    cases hs : Split payload ',' with
    | nil => rfl
    | cons first rest =>
      by_cases hf : first = ""
      · simp [hf]
      · simp only [hf, if_false]
        rw [← hs, hsplit]
        exact validateIntIn_bad_token before after tok v hbefore htok
  exact ⟨h2, by rw [h2, validateInt_in_empty]⟩

theorem unparsable_token_gives_ErrWrongIn_witness :
    Split "1,abc,2" ',' = ["1"] ++ "abc" :: ["2"] ∧
      (∀ t ∈ ["1"], ∃ n, Atoi t = some n ∧ n ≠ 2) ∧
      Atoi "abc" = none ∧
      validateInt ("in:" ++ "1,abc,2") 2 = some ⟨.ErrWrongIn⟩ ∧
      validateInt ("in:" ++ "1,abc,2") 2 = validateInt "in:" 2 :=
  ⟨by decide, by simp; decide, by decide,
    unparsable_token_gives_ErrWrongIn "1,abc,2" 2 ["1"] ["2"] "abc" (by decide) (by simp; decide)
      (by decide)⟩

/-! ## Rules that fail whatever the value -/

theorem validateInt_unrecognized (validate : String) (v : Int) (h0 : validate ≠ "")
    (hin : HasPrefix validate "in:" = false) (hmin : HasPrefix validate "min:" = false)
    (hmax : HasPrefix validate "max:" = false) :
    validateInt validate v = some ⟨.ErrUnexpectedValidate⟩ := by
  simp [validateInt, prefixIn, prefixMin, prefixMax, h0, hin, hmin, hmax]

theorem validateString_unrecognized (validate v : String) (h0 : validate ≠ "")
    (hlen : HasPrefix validate "len:" = false) (hin : HasPrefix validate "in:" = false)
    (hmin : HasPrefix validate "min:" = false) (hmax : HasPrefix validate "max:" = false) :
    validateString validate v = some ⟨.ErrUnexpectedValidate⟩ := by
  simp [validateString, prefixLen, prefixIn, prefixMin, prefixMax, h0, hlen, hin, hmin, hmax]

theorem validateInt_in_empty_first (p : String) (v : Int)
    (h : (Split p ',').head? = some "") :
    validateInt ("in:" ++ p) v = some ⟨.ErrWrongIn⟩ := by
  have h1 := validateInt_in p v
  change validateInt ("in:" ++ p) v = _ at h1
  rw [h1]
  cases hs : Split p ',' with
  | nil => rfl
  | cons first rest =>
    rw [hs] at h
    have hf : first = "" := by simpa using h
    simp [hf]

theorem validateString_in_empty_first (p v : String)
    (h : (Split p ',').head? = some "") :
    validateString ("in:" ++ p) v = some ⟨.ErrWrongIn⟩ := by
  have h1 := validateString_in p v
  change validateString ("in:" ++ p) v = _ at h1
  rw [h1]
  cases hs : Split p ',' with
  | nil => rfl
  | cons first rest =>
    rw [hs] at h
    have hf : first = "" := by simpa using h
    simp [hf]

theorem validateInt_min_bad (p : String) (v : Int) (h : Atoi p = none) :
    validateInt ("min:" ++ p) v = some ⟨.ErrInvalidValidatorSyntax⟩ := by
  have h1 := validateInt_min p v
  rw [h] at h1
  exact h1

theorem validateInt_max_bad (p : String) (v : Int) (h : Atoi p = none) :
    validateInt ("max:" ++ p) v = some ⟨.ErrInvalidValidatorSyntax⟩ := by
  have h1 := validateInt_max p v
  rw [h] at h1
  exact h1

theorem validateString_min_bad (p v : String) (h : Atoi p = none) :
    validateString ("min:" ++ p) v = some ⟨.ErrInvalidValidatorSyntax⟩ := by
  have h1 := validateString_min p v
  rw [h] at h1
  exact h1

theorem validateString_max_bad (p v : String) (h : Atoi p = none) :
    validateString ("max:" ++ p) v = some ⟨.ErrInvalidValidatorSyntax⟩ := by
  have h1 := validateString_max p v
  rw [h] at h1
  exact h1

/-! ## The claims, continued -/

/-- C11: a rule `in:` with nothing after the prefix, or whose payload begins with an
empty token, makes `validateInt` and `validateString` return `ErrWrongIn` for every
integer and every text, the empty text and a text equal to a later token included. -/
theorem empty_first_token_gives_ErrWrongIn (payload : String) (v : Int) (s : String)
    (h : (Split payload ',').head? = some "") :
    validateInt ("in:" ++ payload) v = some ⟨.ErrWrongIn⟩ ∧
      validateString ("in:" ++ payload) s = some ⟨.ErrWrongIn⟩ ∧
      validateInt "in:" v = some ⟨.ErrWrongIn⟩ ∧
      validateString "in:" s = some ⟨.ErrWrongIn⟩ ∧
      validateString "in:" "" = some ⟨.ErrWrongIn⟩ ∧
      validateString "in:,a" "a" = some ⟨.ErrWrongIn⟩ := by
  refine ⟨validateInt_in_empty_first payload v h, validateString_in_empty_first payload s h,
    validateInt_in_empty v, ?_, by decide, by decide⟩
  exact validateString_in_empty_first "" s (by decide)

theorem empty_first_token_gives_ErrWrongIn_witness :
    (Split ",7,a" ',').head? = some "" ∧
      validateInt ("in:" ++ ",7,a") 7 = some ⟨.ErrWrongIn⟩ ∧
      validateString ("in:" ++ ",7,a") "a" = some ⟨.ErrWrongIn⟩ ∧
      validateInt "in:" 7 = some ⟨.ErrWrongIn⟩ ∧
      validateString "in:" "a" = some ⟨.ErrWrongIn⟩ ∧
      validateString "in:" "" = some ⟨.ErrWrongIn⟩ ∧
      validateString "in:,a" "a" = some ⟨.ErrWrongIn⟩ :=
  ⟨by decide, empty_first_token_gives_ErrWrongIn ",7,a" 7 "a" (by decide)⟩

/-- C12: for a rule `min:<payload>` or `max:<payload>` whose payload `strconv.Atoi`
rejects, `validateInt` and `validateString` return `ErrInvalidValidatorSyntax` for
every integer and every text; so do `min:abc`, `max:abc` and `min:`. -/
theorem bad_bound_gives_ErrInvalidValidatorSyntax (p : String) (v : Int) (s : String)
    (h : Atoi p = none) :
    validateInt ("min:" ++ p) v = some ⟨.ErrInvalidValidatorSyntax⟩ ∧
      validateInt ("max:" ++ p) v = some ⟨.ErrInvalidValidatorSyntax⟩ ∧
      validateString ("min:" ++ p) s = some ⟨.ErrInvalidValidatorSyntax⟩ ∧
      validateString ("max:" ++ p) s = some ⟨.ErrInvalidValidatorSyntax⟩ ∧
      validateInt "min:abc" v = some ⟨.ErrInvalidValidatorSyntax⟩ ∧
      validateString "max:abc" s = some ⟨.ErrInvalidValidatorSyntax⟩ ∧
      validateInt "min:" v = some ⟨.ErrInvalidValidatorSyntax⟩ ∧
      validateString "min:" s = some ⟨.ErrInvalidValidatorSyntax⟩ :=
  ⟨validateInt_min_bad p v h, validateInt_max_bad p v h, validateString_min_bad p s h,
    validateString_max_bad p s h, validateInt_min_bad "abc" v (by decide),
    validateString_max_bad "abc" s (by decide), validateInt_min_bad "" v (by decide),
    validateString_min_bad "" s (by decide)⟩

theorem bad_bound_gives_ErrInvalidValidatorSyntax_witness :
    Atoi "abc" = none ∧
      validateInt ("min:" ++ "abc") 0 = some ⟨.ErrInvalidValidatorSyntax⟩ ∧
      validateInt ("max:" ++ "abc") 0 = some ⟨.ErrInvalidValidatorSyntax⟩ ∧
      validateString ("min:" ++ "abc") "x" = some ⟨.ErrInvalidValidatorSyntax⟩ ∧
      validateString ("max:" ++ "abc") "x" = some ⟨.ErrInvalidValidatorSyntax⟩ ∧
      validateInt "min:abc" 0 = some ⟨.ErrInvalidValidatorSyntax⟩ ∧
      validateString "max:abc" "x" = some ⟨.ErrInvalidValidatorSyntax⟩ ∧
      validateInt "min:" 0 = some ⟨.ErrInvalidValidatorSyntax⟩ ∧
      validateString "min:" "x" = some ⟨.ErrInvalidValidatorSyntax⟩ :=
  ⟨by decide, bad_bound_gives_ErrInvalidValidatorSyntax "abc" 0 "x" (by decide)⟩

/-- C13: a non-empty rule that starts with none of `in:`, `min:`, `max:` makes
`validateInt` return `ErrUnexpectedValidate` for every integer, and when it does not
start with `len:` either `validateString` returns `ErrUnexpectedValidate` for every
text; `len:5` on an integer and `inner` on either scalar give `ErrUnexpectedValidate`. -/
theorem unrecognized_rule_gives_ErrUnexpectedValidate (validate : String) (v : Int)
    (s : String) (h0 : validate ≠ "") (hin : HasPrefix validate "in:" = false)
    (hmin : HasPrefix validate "min:" = false) (hmax : HasPrefix validate "max:" = false) :
    validateInt validate v = some ⟨.ErrUnexpectedValidate⟩ ∧
      (HasPrefix validate "len:" = false →
        validateString validate s = some ⟨.ErrUnexpectedValidate⟩) ∧
      validateInt "len:5" v = some ⟨.ErrUnexpectedValidate⟩ ∧
      validateInt "inner" v = some ⟨.ErrUnexpectedValidate⟩ ∧
      validateString "inner" s = some ⟨.ErrUnexpectedValidate⟩ :=
  ⟨validateInt_unrecognized validate v h0 hin hmin hmax,
    fun hlen => validateString_unrecognized validate s h0 hlen hin hmin hmax,
    validateInt_unrecognized "len:5" v (by decide) (by decide) (by decide) (by decide),
    validateInt_unrecognized "inner" v (by decide) (by decide) (by decide) (by decide),
    validateString_unrecognized "inner" s (by decide) (by decide) (by decide) (by decide)
      (by decide)⟩

theorem unrecognized_rule_gives_ErrUnexpectedValidate_witness :
    ("bogus" : String) ≠ "" ∧ HasPrefix "bogus" "in:" = false ∧
      HasPrefix "bogus" "min:" = false ∧ HasPrefix "bogus" "max:" = false ∧
      HasPrefix "bogus" "len:" = false ∧
      validateInt "bogus" 3 = some ⟨.ErrUnexpectedValidate⟩ ∧
      (HasPrefix "bogus" "len:" = false →
        validateString "bogus" "abc" = some ⟨.ErrUnexpectedValidate⟩) ∧
      validateInt "len:5" 3 = some ⟨.ErrUnexpectedValidate⟩ ∧
      validateInt "inner" 3 = some ⟨.ErrUnexpectedValidate⟩ ∧
      validateString "inner" "abc" = some ⟨.ErrUnexpectedValidate⟩ :=
  ⟨by decide, by decide, by decide, by decide, by decide,
    unrecognized_rule_gives_ErrUnexpectedValidate "bogus" 3 "abc" (by decide) (by decide)
      (by decide) (by decide)⟩

/-! ## What each kind of exported field yields -/

theorem foldl_appendIntErr_filterMap (validate : String) (elems : List Int) :
    elems.foldl (appendIntErr validate) [] = elems.filterMap (validateInt validate) := by
  induction elems with
  | nil => rfl
  | cons x xs ih =>
    rw [List.foldl_cons, foldl_appendIntErr, ih]
    cases h : validateInt validate x <;> simp [appendIntErr, h, List.filterMap_cons]

theorem foldl_appendStringErr_filterMap (validate : String) (elems : List String) :
    elems.foldl (appendStringErr validate) [] =
      elems.filterMap (validateString validate) := by
  induction elems with
  | nil => rfl
  | cons x xs ih =>
    rw [List.foldl_cons, foldl_appendStringErr, ih]
    cases h : validateString validate x <;> simp [appendStringErr, h, List.filterMap_cons]

theorem ValidateFields_intSlice (validate : String) (elems : List Int) :
    ValidateFields [.mk true validate (.intSlice elems)] [] =
      elems.filterMap (validateInt validate) := by
  rw [ValidateFields_unfold]
  simp [ValidateFields_nil, foldl_appendIntErr_filterMap]

theorem ValidateFields_stringSlice (validate : String) (elems : List String) :
    ValidateFields [.mk true validate (.stringSlice elems)] [] =
      elems.filterMap (validateString validate) := by
  rw [ValidateFields_unfold]
  simp [ValidateFields_nil, foldl_appendStringErr_filterMap]

theorem ValidateFields_inner (fs : List StructField) :
    ValidateFields [.mk true "inner" (.struct fs)] [] = ValidateFields fs [] := by
  rw [ValidateFields_unfold]
  by_cases he : ValidateFields fs [] = []
  · simp [Validate_struct, he, ValidateFields_nil]
  · simp [Validate_struct, he, ValidateFields_nil]

theorem ValidateFields_struct_not_inner (validate : String) (fs : List StructField)
    (h : validate ≠ "inner") :
    ValidateFields [.mk true validate (.struct fs)] [] = [] := by
  rw [ValidateFields_unfold]
  simp [h, ValidateFields_nil]

/-- C14: an exported field that is a slice of integers (resp. of texts) yields exactly
the failures of `validateInt` (resp. `validateString`) applied with the field's rule to
each element, in element order; with rule `min:0` the elements 0, -1, 2 give the single
violation `ErrWrongMin`, which comes from the second element. -/
theorem sequence_field_violations (validate : String) (ints : List Int)
    (texts : List String) :
    ValidateFields [.mk true validate (.intSlice ints)] [] =
        ints.filterMap (validateInt validate) ∧
      ValidateFields [.mk true validate (.stringSlice texts)] [] =
        texts.filterMap (validateString validate) ∧
      Validate (.struct [.mk true "min:0" (.intSlice [0, -1, 2])]) =
        some (.validationErrors [⟨.ErrWrongMin⟩]) ∧
      validateInt "min:0" 0 = none ∧
      validateInt "min:0" (-1) = some ⟨.ErrWrongMin⟩ ∧
      validateInt "min:0" 2 = none :=
  ⟨ValidateFields_intSlice validate ints, ValidateFields_stringSlice validate texts,
    by decide, by decide, by decide, by decide⟩

/-- C15: an exported struct field tagged `inner` yields exactly the entries of the list
`Validate` returns on the nested value, in order and at the position of the field,
with no wrapper, and nothing when the nested call returns nil; a nested value failing
two checks gives a parent list of length 2. -/
theorem inner_field_splices_nested_list (pre post fs : List StructField) :
    (∃ nested,
        (Validate (.struct fs) = none ∧ nested = [] ∨
          Validate (.struct fs) = some (.validationErrors nested)) ∧
        ValidateFields [.mk true "inner" (.struct fs)] [] = nested ∧
        Validate (.struct (pre ++ .mk true "inner" (.struct fs) :: post)) =
          (if ValidateFields pre [] ++ nested ++ ValidateFields post [] = [] then none
           else some (.validationErrors
             (ValidateFields pre [] ++ nested ++ ValidateFields post [])))) ∧
      Validate (.struct [.mk true "inner"
          (.struct [.mk true "min:5" (.int 1), .mk true "len:3" (.string "ab")])]) =
        some (.validationErrors [⟨.ErrWrongMin⟩, ⟨.ErrWrongLen⟩]) := by
  refine ⟨⟨ValidateFields fs [], ?_, ValidateFields_inner fs, ?_⟩, by decide⟩
  · rw [Validate_struct]
    by_cases he : ValidateFields fs [] = []
    · simp [he]
    · simp [he]
  · rw [Validate_struct, ValidateFields_append, ValidateFields_cons, ValidateFields_inner,
      List.append_assoc]

/-- C16: an exported struct field whose rule is not the literal `inner` yields no
violation, even when the fields of the nested struct would fail, and an exported field
of an unsupported kind (a slice of other elements, a pointer, any other kind) yields
no violation whatever its rule. -/
theorem ignored_fields_yield_nothing (validate rule : String) (fs : List StructField)
    (elems : List Value) (elem : Value) (h : validate ≠ "inner") :
    ValidateFields [.mk true validate (.struct fs)] [] = [] ∧
      ValidateFields [.mk true rule (.otherSlice elems)] [] = [] ∧
      ValidateFields [.mk true rule (.ptr elem)] [] = [] ∧
      ValidateFields [.mk true rule .other] [] = [] ∧
      Validate (.struct [.mk true "min:1" (.struct [.mk true "min:5" (.int 1)]),
        .mk true "bogus" (.struct [.mk true "min:5" (.int 1)]),
        .mk true "min:1" (.otherSlice [.struct [.mk true "min:5" (.int 1)]]),
        .mk true "inner" (.ptr (.struct [.mk true "min:5" (.int 1)])),
        .mk true "len:3" .other]) = none := by
  refine ⟨ValidateFields_struct_not_inner validate fs h, ?_, ?_, ?_, by decide⟩
  · rw [ValidateFields_unfold]
    simp [ValidateFields_nil]
  · rw [ValidateFields_unfold]
    simp [ValidateFields_nil]
  · rw [ValidateFields_unfold]
    simp [ValidateFields_nil]

theorem ignored_fields_yield_nothing_witness :
    ("min:1" : String) ≠ "inner" ∧
      ValidateFields [.mk true "min:1" (.struct [.mk true "min:5" (.int 1)])] [] = [] ∧
      ValidateFields [.mk true "inner"
        (.otherSlice [.struct [.mk true "min:5" (.int 1)]])] [] = [] ∧
      ValidateFields [.mk true "inner" (.ptr (.struct [.mk true "min:5" (.int 1)]))] [] = [] ∧
      ValidateFields [.mk true "inner" .other] [] = [] ∧
      Validate (.struct [.mk true "min:1" (.struct [.mk true "min:5" (.int 1)]),
        .mk true "bogus" (.struct [.mk true "min:5" (.int 1)]),
        .mk true "min:1" (.otherSlice [.struct [.mk true "min:5" (.int 1)]]),
        .mk true "inner" (.ptr (.struct [.mk true "min:5" (.int 1)])),
        .mk true "len:3" .other]) = none :=
  ⟨by decide, ignored_fields_yield_nothing "min:1" "inner"
    [.mk true "min:5" (.int 1)] [.struct [.mk true "min:5" (.int 1)]]
    (.struct [.mk true "min:5" (.int 1)]) (by decide)⟩

/-! ## Rendering a violation list -/

theorem ErrorLoop_false (errs : List ValidationError) (b : String) :
    ValidationErrors.ErrorLoop errs false b = b ++ ValidationErrors.ErrorLoop errs false "" := by
  induction errs generalizing b with
  | nil => simp [ValidationErrors.ErrorLoop]
  | cons e rest ih =>
    simp only [ValidationErrors.ErrorLoop, Bool.false_eq_true, if_false]
    rw [ih ((b ++ ". ") ++ e.Err.Error), ih ((("" : String) ++ ". ") ++ e.Err.Error)]
    simp [String.append_assoc]

theorem ErrorLoop_intercalate_go (errs : List ValidationError) (b : String) :
    ValidationErrors.ErrorLoop errs false b =
      String.intercalate.go b ". " (errs.map fun e => e.Err.Error) := by
  induction errs generalizing b with
  | nil => simp [ValidationErrors.ErrorLoop, String.intercalate.go]
  | cons e rest ih =>
    simp only [ValidationErrors.ErrorLoop, Bool.false_eq_true, if_false, List.map_cons,
      String.intercalate.go]
    exact ih _

/-- C17: `Error()` renders a `ValidationErrors` list as the messages of its entries in
list order with the separator ". " between consecutive entries only: the empty list
renders as the empty string, a one element list as the message of that element, and a
longer list as the first message, the separator and the rendering of the rest. -/
theorem Error_joins_messages (v : ValidationErrors) :
    ValidationErrors.Error v = String.intercalate ". " (v.map fun e => e.Err.Error) ∧
      ValidationErrors.Error [] = "" ∧
      (∀ e : ValidationError, ValidationErrors.Error [e] = e.Err.Error) ∧
      (∀ (e e2 : ValidationError) (rest : ValidationErrors),
        ValidationErrors.Error (e :: e2 :: rest) =
          e.Err.Error ++ ". " ++ ValidationErrors.Error (e2 :: rest)) ∧
      ValidationErrors.Error [⟨.ErrWrongMin⟩, ⟨.ErrWrongLen⟩, ⟨.ErrNotStruct⟩] =
        "wrong min. wrong len. wrong argument given, should be a struct" := by
  refine ⟨?_, rfl, ?_, ?_, by decide⟩
  · cases v with
    | nil => rfl
    | cons e rest =>
      simp only [ValidationErrors.Error, ValidationErrors.ErrorLoop, if_true, List.map_cons,
        String.intercalate, String.empty_append]
      exact ErrorLoop_intercalate_go rest _
  · intro e
    simp [ValidationErrors.Error, ValidationErrors.ErrorLoop]
  · intro e e2 rest
    simp only [ValidationErrors.Error, ValidationErrors.ErrorLoop, if_true,
      Bool.false_eq_true, if_false, String.empty_append]
    rw [ErrorLoop_false rest ((e.Err.Error ++ ". ") ++ e2.Err.Error),
      ErrorLoop_false rest e2.Err.Error]
    simp [String.append_assoc]

/-! ## Integer membership by token position -/

/-- The integer membership loop passes exactly when the token at some position parses
to the value and the tokens at all earlier positions parse. -/
theorem validateIntIn_eq_none_iff_position (values : List String) (v : Int) :
    validateIntIn values v = none ↔
      ∃ (k : Nat) (tok : String), values[k]? = some tok ∧ Atoi tok = some v ∧
        ∀ j : Nat, j < k → ∃ t n, values[j]? = some t ∧ Atoi t = some n := by
  induction values with
  | nil => simp [validateIntIn]
  | cons x rest ih =>
    cases hx : Atoi x with
    | none =>
      simp only [validateIntIn, hx]
      refine ⟨fun hc => absurd hc (by simp), ?_⟩
      rintro ⟨k, tok, hk, htok, hbefore⟩
      cases k with
      | zero =>
        simp only [List.getElem?_cons_zero, Option.some.injEq] at hk
        rw [← hk, hx] at htok
        exact absurd htok (by simp)
      | succ k =>
        obtain ⟨t, n, ht, hn⟩ := hbefore 0 (Nat.succ_pos k)
        simp only [List.getElem?_cons_zero, Option.some.injEq] at ht
        rw [← ht, hx] at hn
        exact absurd hn (by simp)
    | some val =>
      by_cases hv : v = val
      · simp only [validateIntIn, hx, hv, if_true, true_iff]
        exact ⟨0, x, by simp, hx, fun j hj => absurd hj (Nat.not_lt_zero j)⟩
      · simp only [validateIntIn, hx, hv, if_false]
        rw [ih]
        constructor
        · rintro ⟨k, tok, hk, htok, hbefore⟩
          refine ⟨k + 1, tok, by simpa using hk, htok, ?_⟩
          intro j hj
          cases j with
          | zero => exact ⟨x, val, by simp, hx⟩
          | succ j =>
            obtain ⟨t, n, ht, hn⟩ := hbefore j (Nat.lt_of_succ_lt_succ hj)
            exact ⟨t, n, by simpa using ht, hn⟩
        · rintro ⟨k, tok, hk, htok, hbefore⟩
          cases k with
          | zero =>
            simp only [List.getElem?_cons_zero, Option.some.injEq] at hk
            rw [← hk, hx] at htok
            exact absurd (Option.some.inj htok).symm hv
          | succ k =>
            refine ⟨k, tok, by simpa using hk, htok, ?_⟩
            intro j hj
            obtain ⟨t, n, ht, hn⟩ := hbefore (j + 1) (Nat.succ_lt_succ hj)
            exact ⟨t, n, by simpa using ht, hn⟩

/-- C18: for a rule `in:<payload>`, `validateInt` returns nil iff the first comma
separated token is not empty and at some position `k` the token parses to the value
while the tokens at all positions before `k` parse as integers; in every other case it
returns `ErrWrongIn`.  The order of the tokens matters: `in:1,abc` accepts 1 and
`in:abc,1` rejects it. -/
theorem int_membership_by_position (payload : String) (v : Int) :
    (validateInt ("in:" ++ payload) v = none ↔
        (Split payload ',').head? ≠ some "" ∧
          ∃ (k : Nat) (tok : String), (Split payload ',')[k]? = some tok ∧ Atoi tok = some v ∧
            ∀ j : Nat, j < k → ∃ t n, (Split payload ',')[j]? = some t ∧ Atoi t = some n) ∧
      (validateInt ("in:" ++ payload) v = none ∨
        validateInt ("in:" ++ payload) v = some ⟨.ErrWrongIn⟩) ∧
      validateInt "in:1,abc" 1 = none ∧
      validateInt "in:abc,1" 1 = some ⟨.ErrWrongIn⟩ := by
  have h1 := validateInt_in payload v
  change validateInt ("in:" ++ payload) v = _ at h1
  refine ⟨?_, ?_, by decide, by decide⟩
  · rw [h1]
    cases hs : Split payload ',' with
    | nil => exact absurd hs (Split_ne_nil _ _)
    | cons first rest =>
      by_cases hf : first = ""
      · simp [hf]
      · simp only [hf, if_false, List.head?_cons, ne_eq, Option.some.injEq, not_false_eq_true,
          true_and]
        exact validateIntIn_eq_none_iff_position (first :: rest) v
  · rw [h1]
    cases hs : Split payload ',' with
    | nil => exact Or.inr rfl
    | cons first rest =>
      by_cases hf : first = ""
      · simp [hf]
      · simp only [hf, if_false]
        exact validateIntIn_nil_or_wrongIn (first :: rest) v

/-! ## The errors a violation can wrap -/

theorem validateInt_ne_ErrNotStruct (validate : String) (v : Int) (e : ValidationError)
    (h : validateInt validate v = some e) : e.Err ≠ .ErrNotStruct := by
  unfold validateInt at h
  split at h
  · simp at h
  · split at h
    · split at h
      · cases h; simp
      · split at h
        · cases h; simp
        · rcases validateIntIn_nil_or_wrongIn _ v with h2 | h2
          · rw [h2] at h; simp at h
          · rw [h2] at h; cases h; simp
    · split at h
      · split at h
        · cases h; simp
        · split at h
          · cases h; simp
          · simp at h
      · split at h
        · split at h
          · cases h; simp
          · split at h
            · cases h; simp
            · simp at h
        · cases h; simp

theorem validateString_ne_ErrNotStruct (validate v : String) (e : ValidationError)
    (h : validateString validate v = some e) : e.Err ≠ .ErrNotStruct := by
  unfold validateString at h
  split at h
  · simp at h
  · split at h
    · split at h
      · cases h; simp
      · split at h
        · cases h; simp
        · simp at h
    · split at h
      · split at h
        · cases h; simp
        · split at h
          · cases h; simp
          · rw [validateStringIn_eq] at h
            split at h
            · simp at h
            · cases h; simp
      · split at h
        · split at h
          · cases h; simp
          · split at h
            · cases h; simp
            · simp at h
        · split at h
          · split at h
            · cases h; simp
            · split at h
              · cases h; simp
              · simp at h
          · cases h; simp

/-- A violation a field yields either wraps an error other than `ErrNotStruct` or comes
from the fields of the nested struct. -/
theorem field_violation_cases (exported : Bool) (validate : String) (value : Value)
    (e : ValidationError) (h : e ∈ ValidateFields [.mk exported validate value] []) :
    e.Err ≠ .ErrNotStruct ∨
      ∃ fields, value = .struct fields ∧ e ∈ ValidateFields fields [] := by
  rw [ValidateFields_unfold] at h
  by_cases hu : (!exported && validate != "") = true
  · simp only [hu, if_true, ValidateFields_nil, List.nil_append, List.mem_singleton] at h
    left
    rw [h]
    simp
  · simp only [hu, if_false, Bool.false_eq_true] at h
    cases value with
    | int v =>
      left
      cases hv : validateInt validate v with
      | none => simp [hv, ValidateFields_nil] at h
      | some err =>
        simp only [hv, ValidateFields_nil, List.nil_append, List.mem_singleton] at h
        rw [h]
        exact validateInt_ne_ErrNotStruct validate v err hv
    | string s =>
      left
      cases hv : validateString validate s with
      | none => simp [hv, ValidateFields_nil] at h
      | some err =>
        simp only [hv, ValidateFields_nil, List.nil_append, List.mem_singleton] at h
        rw [h]
        exact validateString_ne_ErrNotStruct validate s err hv
    | intSlice elems =>
      left
      simp only [ValidateFields_nil, foldl_appendIntErr_filterMap, List.mem_filterMap] at h
      obtain ⟨x, _, hx⟩ := h
      exact validateInt_ne_ErrNotStruct validate x e hx
    | stringSlice elems =>
      left
      simp only [ValidateFields_nil, foldl_appendStringErr_filterMap, List.mem_filterMap] at h
      obtain ⟨x, _, hx⟩ := h
      exact validateString_ne_ErrNotStruct validate x e hx
    | struct fields =>
      right
      refine ⟨fields, rfl, ?_⟩
      by_cases hi : validate = "inner"
      · by_cases he : ValidateFields fields [] = []
        · simp [hi, Validate_struct, he, ValidateFields_nil] at h
        · simpa [hi, Validate_struct, he, ValidateFields_nil] using h
      · simp [hi, ValidateFields_nil] at h
    | otherSlice elems => simp [ValidateFields_nil] at h
    | ptr elem => simp [ValidateFields_nil] at h
    | other => simp [ValidateFields_nil] at h

/-- No violation collected by the field loop wraps `ErrNotStruct`; `n` bounds the size
of the fields, nested ones included. -/
theorem ValidateFields_ne_ErrNotStruct (n : Nat) :
    ∀ fs : List StructField, sizeOf fs ≤ n →
      ∀ e ∈ ValidateFields fs [], e.Err ≠ .ErrNotStruct := by
  induction n with
  | zero =>
    intro fs hn e he
    cases fs with
    | nil => simp [ValidateFields_nil] at he
    | cons f rest =>
      simp only [List.cons.sizeOf_spec] at hn
      omega
  | succ n ih =>
    intro fs hn e he
    cases fs with
    | nil => simp [ValidateFields_nil] at he
    | cons f rest =>
      obtain ⟨exported, validate, value⟩ := f
      simp only [List.cons.sizeOf_spec, StructField.mk.sizeOf_spec] at hn
      rw [ValidateFields_cons] at he
      rcases List.mem_append.mp he with h1 | h1
      · rcases field_violation_cases exported validate value e h1 with h2 | ⟨fields, hv, h2⟩
        · exact h2
        · subst hv
          simp only [Value.struct.sizeOf_spec] at hn
          exact ih fields (by omega) e h2
      · exact ih rest (by omega) e h1

theorem Sentinel_ne_ErrNotStruct (s : Sentinel) (h : s ≠ .ErrNotStruct) :
    s ∈ [Sentinel.ErrValidateForUnexportedFields, .ErrInvalidValidatorSyntax,
      .ErrUnexpectedValidate, .ErrWrongLen, .ErrWrongIn, .ErrWrongMin, .ErrWrongMax] := by
  cases s <;> simp at h ⊢

/-- C19: on a struct `Validate` never returns a bare sentinel, so the call made for a
nested struct field tagged `inner` never returns `ErrNotStruct` and the wrapping branch
of line 190 is not taken; every violation of a list returned by `Validate` wraps one of
the seven other sentinels and never `ErrNotStruct`. -/
theorem violations_never_wrap_ErrNotStruct (fs : List StructField) (errs : ValidationErrors)
    (h : Validate (.struct fs) = some (.validationErrors errs)) :
    (∀ (nested : List StructField) (s : Sentinel),
        Validate (.struct nested) ≠ some (.sentinel s)) ∧
      ∀ e ∈ errs, e.Err ≠ .ErrNotStruct ∧
        e.Err ∈ [Sentinel.ErrValidateForUnexportedFields, .ErrInvalidValidatorSyntax,
          .ErrUnexpectedValidate, .ErrWrongLen, .ErrWrongIn, .ErrWrongMin, .ErrWrongMax] := by
  constructor
  · intro nested s
    rw [Validate_struct]
    by_cases he : ValidateFields nested [] = []
    · simp [he]
    · simp [he]
  · intro e he
    have herrs : errs = ValidateFields fs [] := by
      rw [Validate_struct] at h
      by_cases hn : ValidateFields fs [] = []
      · simp [hn] at h
      · simpa [hn] using h.symm
    rw [herrs] at he
    have hne := ValidateFields_ne_ErrNotStruct (sizeOf fs) fs (Nat.le_refl _) e he
    exact ⟨hne, Sentinel_ne_ErrNotStruct e.Err hne⟩

theorem violations_never_wrap_ErrNotStruct_witness :
    Validate (.struct [.mk true "inner" (.struct [.mk true "min:5" (.int 1)]),
        .mk false "x" .other]) =
        some (.validationErrors [⟨.ErrWrongMin⟩, ⟨.ErrValidateForUnexportedFields⟩]) ∧
      ((∀ (nested : List StructField) (s : Sentinel),
          Validate (.struct nested) ≠ some (.sentinel s)) ∧
        ∀ e ∈ [ValidationError.mk .ErrWrongMin, ⟨.ErrValidateForUnexportedFields⟩],
          e.Err ≠ .ErrNotStruct ∧
          e.Err ∈ [Sentinel.ErrValidateForUnexportedFields, .ErrInvalidValidatorSyntax,
            .ErrUnexpectedValidate, .ErrWrongLen, .ErrWrongIn, .ErrWrongMin,
            .ErrWrongMax]) :=
  ⟨by decide, violations_never_wrap_ErrNotStruct
    [.mk true "inner" (.struct [.mk true "min:5" (.int 1)]), .mk false "x" .other]
    [⟨.ErrWrongMin⟩, ⟨.ErrValidateForUnexportedFields⟩] (by decide)⟩

/-! ## Rules that fail on every element of a sequence -/

theorem filterMap_const_some {α β : Type} (f : α → Option β) (b : β) (l : List α)
    (h : ∀ a, f a = some b) : l.filterMap f = List.replicate l.length b := by
  induction l with
  | nil => rfl
  | cons a as ih => simp [List.filterMap_cons, h a, ih, List.replicate_succ]

/-- C20: for an exported slice of integers whose rule is malformed whatever the value
(it starts with none of `in:`, `min:`, `max:`; or it is `min:`/`max:` with a payload
`strconv.Atoi` rejects; or it is `in:` with an empty first token) the field yields one
and the same violation per element, so as many violations as elements and none for an
empty slice; the same holds for a slice of texts when the rule does not start with
`len:`. -/
theorem malformed_rule_on_sequence (validate : String) (ints : List Int)
    (texts : List String)
    (h : (validate ≠ "" ∧ HasPrefix validate "in:" = false ∧
          HasPrefix validate "min:" = false ∧ HasPrefix validate "max:" = false) ∨
        (∃ p, (validate = "min:" ++ p ∨ validate = "max:" ++ p) ∧ Atoi p = none) ∨
        (∃ p, validate = "in:" ++ p ∧ (Split p ',').head? = some "")) :
    (∃ err,
        ValidateFields [.mk true validate (.intSlice ints)] [] =
          List.replicate ints.length err ∧
        (HasPrefix validate "len:" = false →
          ValidateFields [.mk true validate (.stringSlice texts)] [] =
            List.replicate texts.length err)) ∧
      Validate (.struct [.mk true "bogus" (.intSlice [])]) = none ∧
      Validate (.struct [.mk true "min:abc" (.stringSlice [])]) = none ∧
      Validate (.struct [.mk true "in:,1" (.intSlice [1, 1, 1])]) =
        some (.validationErrors [⟨.ErrWrongIn⟩, ⟨.ErrWrongIn⟩, ⟨.ErrWrongIn⟩]) := by
  refine ⟨?_, by decide, by decide, by decide⟩
  rw [ValidateFields_intSlice, ValidateFields_stringSlice]
  rcases h with ⟨h0, hin, hmin, hmax⟩ | ⟨p, hp, hbad⟩ | ⟨p, hp, hfirst⟩
  · exact ⟨⟨.ErrUnexpectedValidate⟩,
      filterMap_const_some _ _ ints
        (fun v => validateInt_unrecognized validate v h0 hin hmin hmax),
      fun hlen => filterMap_const_some _ _ texts
        (fun s => validateString_unrecognized validate s h0 hlen hin hmin hmax)⟩
  · rcases hp with hp | hp
    · subst hp
      exact ⟨⟨.ErrInvalidValidatorSyntax⟩,
        filterMap_const_some _ _ ints (fun v => validateInt_min_bad p v hbad),
        fun _ => filterMap_const_some _ _ texts (fun s => validateString_min_bad p s hbad)⟩
    · subst hp
      exact ⟨⟨.ErrInvalidValidatorSyntax⟩,
        filterMap_const_some _ _ ints (fun v => validateInt_max_bad p v hbad),
        fun _ => filterMap_const_some _ _ texts (fun s => validateString_max_bad p s hbad)⟩
  · subst hp
    exact ⟨⟨.ErrWrongIn⟩,
      filterMap_const_some _ _ ints (fun v => validateInt_in_empty_first p v hfirst),
      fun _ => filterMap_const_some _ _ texts
        (fun s => validateString_in_empty_first p s hfirst)⟩

theorem malformed_rule_on_sequence_witness :
    ((("bogus" : String) ≠ "" ∧ HasPrefix "bogus" "in:" = false ∧
          HasPrefix "bogus" "min:" = false ∧ HasPrefix "bogus" "max:" = false) ∨
        (∃ p, ("bogus" = "min:" ++ p ∨ "bogus" = "max:" ++ p) ∧ Atoi p = none) ∨
        (∃ p, "bogus" = "in:" ++ p ∧ (Split p ',').head? = some "")) ∧
      ((∃ err,
          ValidateFields [.mk true "bogus" (.intSlice [4, 5])] [] =
            List.replicate [(4 : Int), 5].length err ∧
          (HasPrefix "bogus" "len:" = false →
            ValidateFields [.mk true "bogus" (.stringSlice ["a", "b", "c"])] [] =
              List.replicate ["a", "b", "c"].length err)) ∧
        Validate (.struct [.mk true "bogus" (.intSlice [])]) = none ∧
        Validate (.struct [.mk true "min:abc" (.stringSlice [])]) = none ∧
        Validate (.struct [.mk true "in:,1" (.intSlice [1, 1, 1])]) =
          some (.validationErrors [⟨.ErrWrongIn⟩, ⟨.ErrWrongIn⟩, ⟨.ErrWrongIn⟩])) :=
  ⟨Or.inl (by decide), malformed_rule_on_sequence "bogus" [4, 5] ["a", "b", "c"]
    (Or.inl (by decide))⟩

end Validator
